import Mathlib

/-! Shallow embedding of the splitmerge utility (src/splitmerge.py): the shard
filename matcher, shard discovery (`get_split_files`), shard validation
(`validate_shards`), Git LFS pointer detection (`is_lfs_pointer`), the merge
fold (`merge_safetensor_files`) and the orchestration (`merge_model_shards`),
together with theorems settling the frozen claims about them. -/

namespace Splitmerge

/-- Filenames are modelled as lists of characters. -/
abbrev FileName := List Char

/-- The literal `model-` of the shard-name pattern. -/
def pat1 : List Char := ['m', 'o', 'd', 'e', 'l', '-']

/-- The literal `-of-` of the shard-name pattern. -/
def pat2 : List Char := ['-', 'o', 'f', '-']

/-- The literal `.safetensors` of the shard-name pattern (and of the glob). -/
def patExt : List Char := ['.', 's', 'a', 'f', 'e', 't', 'e', 'n', 's', 'o', 'r', 's']

/-- Value of a digit string, as Python's `int()` computes it on the groups. -/
def digitsToNat (ds : List Char) : Nat :=
  ds.foldl (fun a c => a * 10 + (c.toNat - 48)) 0

/-- Matching a literal at the front of the input: `stripLit lit s` is the rest
of `s` after `lit`, or `none` when `lit` is not a prefix of `s`. -/
def stripLit : List Char → List Char → Option (List Char)
  | [], s => some s
  | _ :: _, [] => none
  | a :: lit, b :: s => if a = b then stripLit lit s else none

/-- Matching `\d+` greedily at the front of the input (the regex's digit runs;
`\d` is modelled as an ASCII digit — every filename the claims touch is ASCII).
Returns the run's numeric value and the rest, or `none` when there is no digit. -/
def takeDigits1 (s : List Char) : Option (Nat × List Char) :=
  if (s.takeWhile Char.isDigit).isEmpty then none
  else some (digitsToNat (s.takeWhile Char.isDigit), s.dropWhile Char.isDigit)

/-- Model of `re.compile(r'model-(\d+)-of-(\d+)\.safetensors').match(name)`
(src/splitmerge.py:129): anchored at the start of `name`, trailing characters
permitted after `.safetensors`; yields `int(group(1))` and `int(group(2))`.
Since a digit run is always followed by a non-digit literal here, greedy
maximal munch coincides with the regex's backtracking search. -/
def parseShardName (name : FileName) : Option (Nat × Nat) :=
  match stripLit pat1 name with
  | none => none
  | some r1 =>
    match takeDigits1 r1 with
    | none => none
    | some (n, r2) =>
      match stripLit pat2 r2 with
      | none => none
      | some r3 =>
        match takeDigits1 r3 with
        | none => none
        | some (t, r4) =>
          match stripLit patExt r4 with
          | none => none
          | some _ => some (n, t)

/-- Model of `re.search(r'model-(\d+)-of-\d+\.safetensors', name)` followed by
`int(match.group(1))` (src/splitmerge.py:183-185): the leftmost position where
the pattern matches, and the first group's value there. -/
def searchShardNum : FileName → Option Nat
  | [] =>
    match parseShardName [] with
    | some p => some p.1
    | none => none
  | c :: rest =>
    match parseShardName (c :: rest) with
    | some p => some p.1
    | none => searchShardNum rest

/-- Model of the `folder_path.glob('*.safetensors')` filter
(src/splitmerge.py:134): the entry's name ends with `.safetensors`. -/
def globMatch (f : FileName) : Bool := patExt.isSuffixOf f

/-- One directory entry's contribution to discovery: `some (index, total, name)`
when the entry passes the glob and the pattern match, `none` otherwise. -/
def matchEntry (f : FileName) : Option (Nat × Nat × FileName) :=
  if globMatch f then
    match parseShardName f with
    | some (n, t) => some (n, t, f)
    | none => none
  else none

/-- Console output `get_split_files` produces: the two `print` lines of the
inconsistent-shard-count branch (src/splitmerge.py:143-144), carrying the
expected total, the conflicting total, and the offending file's name. -/
inductive GsfMsg where
  | inconsistent (expected found : Nat) (file : FileName)
deriving DecidableEq

/-- The `for file_path in folder_path.glob('*.safetensors')` loop of
`get_split_files` (src/splitmerge.py:134-147): accumulates `(shard_num, file)`
pairs and the first file's total, failing as soon as a matched file disagrees
on the total. -/
def gsfLoop : List FileName → List (Nat × FileName) → Option Nat →
    Option (List (Nat × FileName) × Option Nat) × List GsfMsg
  | [], acc, te => (some (acc, te), [])
  | f :: rest, acc, te =>
    if globMatch f then
      match parseShardName f with
      | some (n, t) =>
        match te with
        | none => gsfLoop rest (acc ++ [(n, f)]) (some t)
        | some e =>
          if e ≠ t then (none, [GsfMsg.inconsistent e t f])
          else gsfLoop rest (acc ++ [(n, f)]) (some e)
      | none => gsfLoop rest acc te
    else gsfLoop rest acc te

/-- The sort key order of `shard_files.sort(key=lambda x: x[0])`
(src/splitmerge.py:153): compare pairs by shard number. -/
def shardLe (a b : Nat × FileName) : Prop := a.1 ≤ b.1

instance : DecidableRel shardLe := fun a b => Nat.decLe a.1 b.1

instance : IsTotal (Nat × FileName) shardLe := ⟨fun a b => Nat.le_total a.1 b.1⟩

instance : IsTrans (Nat × FileName) shardLe := ⟨fun _ _ _ => Nat.le_trans⟩

/-- Model of `shard_files.sort(key=lambda x: x[0])` (src/splitmerge.py:153):
Python's `list.sort` is a stable ascending sort by the key, so any stable
sort by `shardLe` — here insertion sort — produces the identical list. -/
def sortPairs (l : List (Nat × FileName)) : List (Nat × FileName) :=
  List.insertionSort shardLe l

/-- Model of `get_split_files` (src/splitmerge.py:110-155) over the directory's
entry names in enumeration order. First component: the returned value —
`some (sorted shard files, total_expected)` or `none` for the `(None, None)`
returns (inconsistent totals, or no match). Second component: the console
messages printed. The `(pairs ≠ [], te = none)` fallback is unreachable: a
matched file always sets the total. -/
def getSplitFiles (entries : List FileName) :
    Option (List FileName × Nat) × List GsfMsg :=
  match gsfLoop entries [] none with
  | (none, log) => (none, log)
  | (some (pairs, te), log) =>
    match pairs, te with
    | [], _ => (none, log)
    | p :: ps, some t => (some ((sortPairs (p :: ps)).map (fun x => x.2), t), log)
    | _ :: _, none => (none, log)

/-- What `is_lfs_pointer` observes of a file: its `stat().st_size`, and the
first line obtained by opening it as UTF-8 text and calling `readline()` —
`none` when that raises `UnicodeDecodeError` or `IOError`. -/
structure FileData where
  size : Nat
  firstLine : Option (List Char)

/-- Substring containment, as Python's `'git-lfs.github.com' in first_line`. -/
def containsSub (needle : List Char) : List Char → Bool
  | [] => needle.isEmpty
  | c :: rest => needle.isPrefixOf (c :: rest) || containsSub needle rest

/-- The marker substring `git-lfs.github.com`. -/
def lfsMarker : List Char :=
  ['g', 'i', 't', '-', 'l', 'f', 's', '.', 'g', 'i', 't', 'h', 'u', 'b', '.',
   'c', 'o', 'm']

/-- Model of `is_lfs_pointer` (src/splitmerge.py:43-72): files over 200 bytes
are never pointers; otherwise the first line must contain the marker; a read
or decode error (`firstLine = none`) means "not a pointer". -/
def is_lfs_pointer (f : FileData) : Bool :=
  if f.size > 200 then false
  else
    match f.firstLine with
    | some line => containsSub lfsMarker line
    | none => false

/-- The error message `validate_shards` returns (src/splitmerge.py:158-194),
carried structurally: the counts, indices and filename the f-strings embed. -/
inductive ValErr where
  | missingShards (found expected : Nat)
  | nonSequential (expected found : Nat)
  | lfsPointer (file : FileName)
deriving DecidableEq

/-- The sequential-numbering loop of `validate_shards`
(src/splitmerge.py:181-187): walk the files with a 1-based position counter;
a file whose name re-matches with a shard number different from its position
yields `some (expected, found)`; files the search does not match are skipped. -/
def seqCheck (i : Nat) : List FileName → Option (Nat × Nat)
  | [] => none
  | f :: rest =>
    match searchShardNum f with
    | some n => if n ≠ i then some (i, n) else seqCheck (i + 1) rest
    | none => seqCheck (i + 1) rest

/-- The LFS-pointer loop of `validate_shards` (src/splitmerge.py:190-192):
the first file flagged by the pointer check, if any. -/
def lfsCheck (lfs : FileName → Bool) : List FileName → Option FileName
  | [] => none
  | f :: rest => if lfs f then some f else lfsCheck lfs rest

/-- Model of `validate_shards` (src/splitmerge.py:158-194), with the pointer
check abstracted over how a name's file data reads (`lfs`). Returns the
`(success, error_message)` pair of the source. -/
def validateShards (lfs : FileName → Bool) (files : List FileName) (total : Nat) :
    Bool × Option ValErr :=
  if files.length ≠ total then
    (false, some (ValErr.missingShards files.length total))
  else
    match seqCheck 1 files with
    | some (e, n) => (false, some (ValErr.nonSequential e n))
    | none =>
      match lfsCheck lfs files with
      | some f => (false, some (ValErr.lfsPointer f))
      | none => (true, none)

/-- Raw tensor bytes, as copied out of a shard. -/
abbrev Tensor := List Nat

/-- The safetensors `__metadata__` block: a flat string-to-string mapping. -/
abbrev Metadata := List (String × String)

/-- What `merge_safetensor_files` observes of one opened shard: its metadata
block (`sf_tsr.metadata()`, `none` when the file carries none) and its
tensors in `keys()` iteration order. -/
structure Shard where
  meta : Option Metadata
  tensors : List (String × Tensor)

/-- One `tensors[str(layer)] = tensor` dictionary insert (src/splitmerge.py:104). -/
def tensorStep (m : String → Option Tensor) (kv : String × Tensor) :
    String → Option Tensor :=
  Function.update m kv.1 (some kv.2)

/-- The inner `for layer in sf_tsr.keys()` loop (src/splitmerge.py:102-104):
insert every tensor of the shard into the accumulated table. -/
def insertTensors (m : String → Option Tensor) (ts : List (String × Tensor)) :
    String → Option Tensor :=
  ts.foldl tensorStep m

/-- One iteration of the shard loop of `merge_safetensor_files`
(src/splitmerge.py:95-104): `if metadata is None: metadata = sf_tsr.metadata()`,
then insert the shard's tensors. -/
def mergeStep (acc : (String → Option Tensor) × Option Metadata) (sh : Shard) :
    (String → Option Tensor) × Option Metadata :=
  (insertTensors acc.1 sh.tensors,
   match acc.2 with
   | none => sh.meta
   | some m => some m)

/-- Model of `merge_safetensor_files` (src/splitmerge.py:75-107) up to the
final `save_file` call: the tensor table and metadata handed to the writer. -/
def mergeSafetensorFiles (shards : List Shard) :
    (String → Option Tensor) × Option Metadata :=
  shards.foldl mergeStep ((fun _ => none), none)

/-- The tensor value a single shard declares under a name: the last
`keys()`-order occurrence, matching the dictionary-insert semantics. -/
def lookupLast (ts : List (String × Tensor)) (name : String) : Option Tensor :=
  match ts with
  | [] => none
  | kv :: rest =>
    match lookupLast rest name with
    | some v => some v
    | none => if kv.1 == name then some kv.2 else none

/-- The value shard `sh` declares under `name`, if any. -/
def shardLookup (sh : Shard) (name : String) : Option Tensor :=
  lookupLast sh.tensors name

/-- Whether shard `sh` declares a tensor under `name`. -/
def declares (sh : Shard) (name : String) : Bool :=
  sh.tensors.any (fun kv => kv.1 == name)

/-- The filesystem mutations `merge_model_shards` can perform
(src/splitmerge.py:259-283): removing the pre-existing `merged` subfolder,
creating it anew, and the writer's attempt on the output file. Reads
(`stat`, `exists`) and console prints mutate nothing and are not effects. -/
inductive FsEffect where
  | rmtreeMerged
  | mkdirMerged
  | writeMerged
deriving DecidableEq

/-- What `merge_model_shards` observes of the world: the target folder's
existence and kind, its entry names in scan order, each name's file data
(for the pointer check), whether a `merged` subfolder already exists, and
whether the writer's `save_file` call succeeds. -/
structure SysState where
  folderExists : Bool
  folderIsDir : Bool
  entries : List FileName
  fdata : FileName → FileData
  mergedExists : Bool
  saveOk : Bool

/-- Model of `merge_model_shards` (src/splitmerge.py:197-304): the returned
success flag, paired with the filesystem mutations performed, in order. The
post-validation tail (sizes, prints, the non-fatal size warning) is abstracted
to the write attempt and `saveOk`. -/
def merge_model_shards (st : SysState) : Bool × List FsEffect :=
  if !st.folderExists then (false, [])
  else if !st.folderIsDir then (false, [])
  else
    match (getSplitFiles st.entries).1 with
    | none => (false, [])
    | some (files, total) =>
      match validateShards (fun f => is_lfs_pointer (st.fdata f)) files total with
      | (false, _) => (false, [])
      | (true, _) =>
        (st.saveOk,
         (if st.mergedExists then [FsEffect.rmtreeMerged] else [])
           ++ [FsEffect.mkdirMerged, FsEffect.writeMerged])

/-- A flat file store: path to contents, `none` when the path has no file. -/
abbrev FileStore := FileName → Option (List Nat)

/-- Modelled from the spec: the Container Writer's atomic-write discipline
(spec §4.2). The writer the repository calls is the external safetensors
library's `save_file` (src/splitmerge.py:107), whose source is not part of
this repository; the spec requires writing to a temporary path in the target's
directory, renaming it into place only on success, and removing it on any
failure. `failAfter = some k` injects an I/O failure after `k` bytes. -/
def atomicWrite (fs : FileStore) (target tmp : FileName) (data : List Nat)
    (failAfter : Option Nat) : FileStore × Bool :=
  match failAfter with
  | some k =>
    let partial0 := Function.update fs tmp (some (data.take k))
    (Function.update partial0 tmp none, false)
  | none =>
    let written := Function.update fs tmp (some data)
    let renamed := Function.update (Function.update written target (some data)) tmp none
    (renamed, true)

/-- The observable outcome of discovery followed by validation: the failure
mode, or the validated ordered shard list and agreed total. -/
inductive DvResult where
  | discoveryFailed : DvResult
  | invalid : Option ValErr → DvResult
  | ok : List FileName → Nat → DvResult
deriving DecidableEq

/-- Discovery composed with validation, as `merge_model_shards` runs them
(src/splitmerge.py:238-250): `get_split_files` on the directory's entries,
then `validate_shards` on its output. -/
def discoverValidate (lfs : FileName → Bool) (entries : List FileName) : DvResult :=
  match (getSplitFiles entries).1 with
  | none => DvResult.discoveryFailed
  | some (files, total) =>
    match validateShards lfs files total with
    | (true, _) => DvResult.ok files total
    | (false, e) => DvResult.invalid e

/-! Lemmas about the merge fold: the accumulated table equals a last-wins
lookup over the concatenation of all shards' tensor lists. -/

/-- All tensors of a shard list, in processing order. -/
def allTensors : List Shard → List (String × Tensor)
  | [] => []
  | sh :: rest => sh.tensors ++ allTensors rest

theorem insertTensors_append (m : String → Option Tensor)
    (ts1 ts2 : List (String × Tensor)) :
    insertTensors m (ts1 ++ ts2) = insertTensors (insertTensors m ts1) ts2 :=
  List.foldl_append ..

theorem lookupLast_append (A B : List (String × Tensor)) (name : String) :
    lookupLast (A ++ B) name =
      match lookupLast B name with
      | some v => some v
      | none => lookupLast A name := by
  induction A with
  | nil => cases h : lookupLast B name <;> simp [lookupLast, h]
  | cons kv rest ih =>
    have hstep : lookupLast ((kv :: rest) ++ B) name =
        match lookupLast (rest ++ B) name with
        | some v => some v
        | none => if kv.1 == name then some kv.2 else none := rfl
    rw [hstep, ih]
    cases h : lookupLast B name <;> cases h2 : lookupLast rest name <;>
      simp [lookupLast, h, h2]

theorem insertTensors_lookup (ts : List (String × Tensor))
    (m : String → Option Tensor) (name : String) :
    insertTensors m ts name =
      match lookupLast ts name with
      | some v => some v
      | none => m name := by
  induction ts generalizing m with
  | nil => simp [insertTensors, lookupLast]
  | cons kv rest ih =>
    show insertTensors (tensorStep m kv) rest name = _
    rw [ih]
    cases h : lookupLast rest name with
    | some v => simp [lookupLast, h]
    | none =>
      cases hk : kv.1 == name with
      | true =>
        have hek : kv.1 = name := beq_iff_eq.mp hk
        simp [lookupLast, h, hk, tensorStep, Function.update_apply, hek]
      | false =>
        have hne : ¬ name = kv.1 := fun he => by simp [he] at hk
        simp [lookupLast, h, hk, tensorStep, Function.update_apply, hne]

theorem foldl_mergeStep_fst (shards : List Shard)
    (acc : (String → Option Tensor) × Option Metadata) :
    (List.foldl mergeStep acc shards).1 = insertTensors acc.1 (allTensors shards) := by
  induction shards generalizing acc with
  | nil => rfl
  | cons sh rest ih =>
    simp only [List.foldl_cons, allTensors, ih, insertTensors_append]
    rfl

theorem mergeSF_fst (shards : List Shard) (name : String) :
    (mergeSafetensorFiles shards).1 name = lookupLast (allTensors shards) name := by
  rw [mergeSafetensorFiles, foldl_mergeStep_fst, insertTensors_lookup]
  cases h : lookupLast (allTensors shards) name <;> simp

theorem lookupLast_isSome (ts : List (String × Tensor)) (name : String) :
    (lookupLast ts name).isSome = ts.any (fun kv => kv.1 == name) := by
  induction ts with
  | nil => simp [lookupLast]
  | cons kv rest ih =>
    simp only [lookupLast, List.any_cons]
    cases h : lookupLast rest name with
    | some v =>
      rw [h] at ih
      simp [← ih]
    | none =>
      rw [h] at ih
      cases hk : kv.1 == name <;> simp [hk, ← ih]

theorem lookupLast_eq_none (ts : List (String × Tensor)) (name : String)
    (h : ts.any (fun kv => kv.1 == name) = false) : lookupLast ts name = none := by
  have := lookupLast_isSome ts name
  rw [h] at this
  exact Option.not_isSome_iff_eq_none.mp (by simp [this])

theorem mem_allTensors (kv : String × Tensor) (shards : List Shard) :
    kv ∈ allTensors shards ↔ ∃ sh ∈ shards, kv ∈ sh.tensors := by
  induction shards with
  | nil => simp [allTensors]
  | cons sh rest ih => simp [allTensors, ih]

theorem mem_drop_imp {α : Type} (l : List α) (n : Nat) (a : α)
    (h : a ∈ l.drop n) : ∃ k, ∃ hk : k < l.length, n ≤ k ∧ l.get ⟨k, hk⟩ = a := by
  induction l generalizing n with
  | nil => simp at h
  | cons x rest ih =>
    cases n with
    | zero =>
      rcases List.mem_iff_get.mp h with ⟨⟨m, hm⟩, hget⟩
      exact ⟨m, hm, Nat.zero_le m, hget⟩
    | succ n =>
      rcases ih n h with ⟨k, hk, hnk, hget⟩
      exact ⟨k + 1, Nat.succ_lt_succ hk, Nat.succ_le_succ hnk, hget⟩

theorem allTensors_append (A B : List Shard) :
    allTensors (A ++ B) = allTensors A ++ allTensors B := by
  induction A with
  | nil => rfl
  | cons sh rest ih => simp [allTensors, ih]

theorem merged_eq_last_declarer (shards : List Shard) (name : String) (j : Nat)
    (hj : j < shards.length)
    (hdec : declares (shards.get ⟨j, hj⟩) name = true)
    (hlast : ∀ k, ∀ hk : k < shards.length, j < k →
      declares (shards.get ⟨k, hk⟩) name = false) :
    (mergeSafetensorFiles shards).1 name = shardLookup (shards.get ⟨j, hj⟩) name := by
  rw [mergeSF_fst]
  have hsplit : shards = shards.take j ++ shards.get ⟨j, hj⟩ :: shards.drop (j + 1) := by
    conv_lhs => rw [← List.take_append_drop j shards]
    rw [List.drop_eq_getElem_cons hj]
    rfl
  have hnone : lookupLast (allTensors (shards.drop (j + 1))) name = none := by
    apply lookupLast_eq_none
    rw [List.any_eq_false]
    intro kv hkv
    rcases (mem_allTensors kv _).mp hkv with ⟨sh, hsh, hmem⟩
    rcases mem_drop_imp shards (j + 1) sh hsh with ⟨k, hk, hjk, hget⟩
    have hfalse := hlast k hk (Nat.lt_of_succ_le hjk)
    rw [hget] at hfalse
    have hany : sh.tensors.any (fun kv2 => kv2.1 == name) = false := hfalse
    have := List.any_eq_false.mp hany kv hmem
    simpa using this
  have hsome : ∃ v, lookupLast (shards.get ⟨j, hj⟩).tensors name = some v := by
    have := lookupLast_isSome (shards.get ⟨j, hj⟩).tensors name
    rw [(by simpa [declares] using hdec :
      (shards.get ⟨j, hj⟩).tensors.any (fun kv => kv.1 == name) = true)] at this
    exact Option.isSome_iff_exists.mp this
  rcases hsome with ⟨v, hv⟩
  conv_lhs => rw [hsplit]
  rw [allTensors_append, lookupLast_append]
  simp only [allTensors, lookupLast_append, hnone, hv]
  exact hv.symm

theorem merged_eq_none (shards : List Shard) (name : String)
    (h : ∀ i, ∀ hi : i < shards.length, declares (shards.get ⟨i, hi⟩) name = false) :
    (mergeSafetensorFiles shards).1 name = none := by
  rw [mergeSF_fst]
  apply lookupLast_eq_none
  rw [List.any_eq_false]
  intro kv hkv
  rcases (mem_allTensors kv _).mp hkv with ⟨sh, hsh, hmem⟩
  rcases List.mem_iff_get.mp hsh with ⟨⟨i, hi⟩, hget⟩
  have hfalse := h i hi
  rw [hget] at hfalse
  have hany : sh.tensors.any (fun kv2 => kv2.1 == name) = false := hfalse
  have := List.any_eq_false.mp hany kv hmem
  simpa using this

/-! Claims C1, C3, C4, C5. -/

/-- C1: the claim says the merged metadata is exactly the first shard's
metadata block, none when the first shard carries none. The code captures the
first non-None metadata instead (`if metadata is None: metadata = ...`,
src/splitmerge.py:98-99): with a first shard carrying no metadata and a second
shard carrying `{"format": "pt"}`, the merged output gets the second shard's
block — contradicting the claim and the function's own docstring ("Metadata
from the first shard is preserved in the output"). -/
theorem metadata_capture_first_nonempty :
    (mergeSafetensorFiles [⟨none, []⟩, ⟨some [("format", "pt")], []⟩]).2
        = some [("format", "pt")]
      ∧ (mergeSafetensorFiles [⟨some [("a", "1")], [] ⟩, ⟨some [("b", "2")], []⟩]).2
        = some [("a", "1")] :=
  ⟨rfl, rfl⟩

/-- C3: the placeholder check returns true iff the file's size is at most 200
bytes and its first line, read as text, contains `git-lfs.github.com`; files
over 200 bytes are never flagged, and a read or decode error yields false. -/
theorem is_lfs_pointer_iff (f : FileData) :
    (is_lfs_pointer f = true ↔
        f.size ≤ 200 ∧ ∃ line, f.firstLine = some line ∧ containsSub lfsMarker line = true)
      ∧ (200 < f.size → is_lfs_pointer f = false)
      ∧ (f.firstLine = none → is_lfs_pointer f = false) := by
  obtain ⟨sz, fl⟩ := f
  by_cases hs : sz > 200
  · simp [is_lfs_pointer, hs, Nat.not_le.mpr hs]
  · cases fl with
    | none => simp [is_lfs_pointer, hs]
    | some line => simp [is_lfs_pointer, hs, Nat.not_lt.mp hs]

/-- C4: if several shards declare the same tensor name, the merged table's
value for that name is the value from the highest-indexed shard declaring it
(last-write-wins under ascending shard-index iteration order). -/
theorem merge_last_write_wins (shards : List Shard) (name : String) (j : Nat)
    (hj : j < shards.length)
    (hdec : declares (shards.get ⟨j, hj⟩) name = true)
    (hlast : ∀ k, ∀ hk : k < shards.length, j < k →
      declares (shards.get ⟨k, hk⟩) name = false) :
    (mergeSafetensorFiles shards).1 name = shardLookup (shards.get ⟨j, hj⟩) name :=
  merged_eq_last_declarer shards name j hj hdec hlast

/-- Two one-tensor shards colliding on the name `x`. -/
def w4shards : List Shard := [⟨none, [("x", [1])]⟩, ⟨none, [("x", [2])]⟩]

/-- Witness for C4: with two shards both declaring `x`, the merged value is
the second (higher-indexed) shard's. -/
theorem merge_last_write_wins_witness :
    (mergeSafetensorFiles w4shards).1 "x" = some [2] := by
  have h := merge_last_write_wins w4shards "x" 1 (by decide) (by decide)
    (fun k hk hgt => absurd (Nat.lt_of_lt_of_le hgt (Nat.le_of_lt_succ hk))
      (Nat.lt_irrefl 1))
  rw [h]
  decide

/-- C5: for shards declaring pairwise-disjoint tensor names, the merged
table's domain is the union of the shards' names — a declared name maps to
exactly the declaring shard's value (and is present), an undeclared name to
none. -/
theorem merge_disjoint_complete (shards : List Shard)
    (hdisj : ∀ i j, ∀ hi : i < shards.length, ∀ hj : j < shards.length, i ≠ j →
      ∀ name, declares (shards.get ⟨i, hi⟩) name = true →
        declares (shards.get ⟨j, hj⟩) name = false) :
    (∀ name i, ∀ hi : i < shards.length, declares (shards.get ⟨i, hi⟩) name = true →
        (mergeSafetensorFiles shards).1 name = shardLookup (shards.get ⟨i, hi⟩) name
          ∧ ((mergeSafetensorFiles shards).1 name).isSome = true)
      ∧ ∀ name, (∀ i, ∀ hi : i < shards.length,
          declares (shards.get ⟨i, hi⟩) name = false) →
        (mergeSafetensorFiles shards).1 name = none := by
  constructor
  · intro name i hi hdec
    have heq := merged_eq_last_declarer shards name i hi hdec
      (fun k hk hgt => hdisj i k hi hk (Nat.ne_of_lt hgt) name hdec)
    refine ⟨heq, ?_⟩
    rw [heq]
    show (lookupLast (shards.get ⟨i, hi⟩).tensors name).isSome = true
    rw [lookupLast_isSome]
    simpa [declares] using hdec
  · intro name h
    exact merged_eq_none shards name h

/-- Two shards with disjoint tensor names. -/
def w5shards : List Shard := [⟨none, [("a", [1])]⟩, ⟨none, [("c", [3])]⟩]

/-- Witness for C5: on a concrete disjoint two-shard set, every declared name
maps to its declaring shard's bytes and an undeclared name is absent. -/
theorem merge_disjoint_complete_witness :
    (mergeSafetensorFiles w5shards).1 "a" = some [1]
      ∧ (mergeSafetensorFiles w5shards).1 "zz" = none := by
  have hdisj : ∀ i j, ∀ hi : i < w5shards.length, ∀ hj : j < w5shards.length,
      i ≠ j → ∀ name, declares (w5shards.get ⟨i, hi⟩) name = true →
        declares (w5shards.get ⟨j, hj⟩) name = false := by
    intro i j hi hj hne name hdec
    have hi2 : i < 2 := by simpa [w5shards] using hi
    have hj2 : j < 2 := by simpa [w5shards] using hj
    interval_cases i <;> interval_cases j <;> try omega
    · have hname : "a" = name := by simpa [w5shards, declares] using hdec
      subst hname
      simp [w5shards, declares]
    · have hname : "c" = name := by simpa [w5shards, declares] using hdec
      subst hname
      simp [w5shards, declares]
  have h := merge_disjoint_complete w5shards hdisj
  refine ⟨?_, ?_⟩
  · have := (h.1 "a" 0 (by decide) (by decide)).1
    rw [this]
    decide
  · apply h.2
    intro i hi
    have hi2 : i < 2 := by simpa [w5shards] using hi
    interval_cases i <;> simp [w5shards, declares]

/-! Lemmas about the filename pattern matcher, and claim C2. -/

theorem stripLit_eq_some (lit : List Char) : ∀ s r : List Char,
    stripLit lit s = some r ↔ s = lit ++ r := by
  induction lit with
  | nil => intro s r; simp [stripLit]
  | cons a lit ih =>
    intro s r
    cases s with
    | nil => simp [stripLit]
    | cons b s =>
      by_cases hab : a = b
      · subst hab
        simp [stripLit, ih]
      · simp only [stripLit, if_neg hab, List.cons_append]
        constructor
        · intro hcon; exact absurd hcon (by simp)
        · intro he
          injection he with h1 _
          exact absurd h1.symm hab

theorem stripLit_self_append (lit r : List Char) : stripLit lit (lit ++ r) = some r :=
  (stripLit_eq_some lit (lit ++ r) r).mpr rfl

theorem mem_takeWhile {α : Type} (p : α → Bool) (l : List α) (x : α)
    (h : x ∈ l.takeWhile p) : p x = true := by
  induction l with
  | nil => simp [List.takeWhile] at h
  | cons a l ih =>
    rw [List.takeWhile_cons] at h
    cases hp : p a with
    | true =>
      rw [hp] at h
      simp only [if_pos] at h
      rcases List.mem_cons.mp h with he | hm
      · subst he; exact hp
      · exact ih hm
    | false =>
      rw [hp] at h
      simp at h

theorem takeWhile_append_stop {α : Type} (p : α → Bool) (d : List α) (c : α)
    (r : List α) (hd : ∀ x ∈ d, p x = true) (hc : p c = false) :
    (d ++ c :: r).takeWhile p = d ∧ (d ++ c :: r).dropWhile p = c :: r := by
  induction d with
  | nil => simp [List.takeWhile_cons, List.dropWhile_cons, hc]
  | cons a d ih =>
    have ha : p a = true := hd a (List.mem_cons_self a d)
    have hrest := ih (fun x hx => hd x (List.mem_cons_of_mem a hx))
    simp [List.takeWhile_cons, List.dropWhile_cons, ha, hrest.1, hrest.2]

/-- One-digit shard numbers: `-` and `.` are not digits. -/
theorem dash_not_digit : Char.isDigit '-' = false := rfl

theorem dot_not_digit : Char.isDigit '.' = false := rfl

/-- C2 counterexample: the claim says only 5-digit zero-padded indices match.
The pattern uses `\d+`, so `model-1-of-2.safetensors` — one-digit groups — is
treated as a shard candidate by discovery. -/
theorem shard_pattern_accepts_one_digit :
    (getSplitFiles [String.toList "model-1-of-2.safetensors"]).1
        = some ([String.toList "model-1-of-2.safetensors"], 2)
      ∧ parseShardName (String.toList "model-1-of-2.safetensors") = some (1, 2) := by
  decide

/-- C2 (amended): a filename matches the shard pattern exactly when it is
`model-<d1>-of-<d2>.safetensors<rest>` with `<d1>`, `<d2>` nonempty decimal
digit runs of any width (no 5-digit padding is required, and trailing
characters after `.safetensors` are allowed by `re.match`), the groups
reading as their decimal values. -/
theorem shard_pattern_characterization (name : FileName) (i t : Nat) :
    parseShardName name = some (i, t) ↔
      ∃ d1 d2 rest,
        name = pat1 ++ (d1 ++ (pat2 ++ (d2 ++ (patExt ++ rest))))
          ∧ d1 ≠ [] ∧ d2 ≠ []
          ∧ (∀ c ∈ d1, Char.isDigit c = true) ∧ (∀ c ∈ d2, Char.isDigit c = true)
          ∧ i = digitsToNat d1 ∧ t = digitsToNat d2 := by
  constructor
  · intro h
    unfold parseShardName at h
    split at h
    · simp at h
    · rename_i r1 h1
      split at h
      · simp at h
      · rename_i n r2 h2
        split at h
        · simp at h
        · rename_i r3 h3
          split at h
          · simp at h
          · rename_i tv r4 h4
            split at h
            · simp at h
            · rename_i rest h5
              simp only [Option.some.injEq, Prod.mk.injEq] at h
              obtain ⟨hn, ht⟩ := h
              unfold takeDigits1 at h2 h4
              cases he1 : (r1.takeWhile Char.isDigit).isEmpty with
              | true => rw [he1] at h2; simp at h2
              | false =>
                rw [he1] at h2
                simp only [Bool.false_eq_true, if_false, Option.some.injEq,
                  Prod.mk.injEq] at h2
                obtain ⟨hn1, hr2⟩ := h2
                cases he2 : (r3.takeWhile Char.isDigit).isEmpty with
                | true => rw [he2] at h4; simp at h4
                | false =>
                  rw [he2] at h4
                  simp only [Bool.false_eq_true, if_false, Option.some.injEq,
                    Prod.mk.injEq] at h4
                  obtain ⟨hn2, hr4⟩ := h4
                  set d1 := r1.takeWhile Char.isDigit with hd1
                  set d2 := r3.takeWhile Char.isDigit with hd2
                  have e1 : name = pat1 ++ r1 := (stripLit_eq_some _ _ _).mp h1
                  have e2 : r1 = d1 ++ r2 := by
                    conv_lhs => rw [← List.takeWhile_append_dropWhile
                      (p := Char.isDigit) (l := r1)]
                    rw [hr2, ← hd1]
                  have e3 : r2 = pat2 ++ r3 := (stripLit_eq_some _ _ _).mp h3
                  have e4 : r3 = d2 ++ r4 := by
                    conv_lhs => rw [← List.takeWhile_append_dropWhile
                      (p := Char.isDigit) (l := r3)]
                    rw [hr4, ← hd2]
                  have e5 : r4 = patExt ++ rest := (stripLit_eq_some _ _ _).mp h5
                  refine ⟨d1, d2, rest, ?_, ?_, ?_, ?_, ?_, ?_, ?_⟩
                  · rw [e1, e2, e3, e4, e5]
                  · intro hcon; rw [hcon] at he1; exact absurd he1 (by simp)
                  · intro hcon; rw [hcon] at he2; exact absurd he2 (by simp)
                  · intro c hc; exact mem_takeWhile Char.isDigit r1 c (hd1 ▸ hc)
                  · intro c hc; exact mem_takeWhile Char.isDigit r3 c (hd2 ▸ hc)
                  · rw [← hn, ← hn1]
                  · rw [← ht, ← hn2]
  · rintro ⟨d1, d2, rest, hname, hne1, hne2, hdig1, hdig2, hi, ht⟩
    subst hname hi ht
    have htw1 := takeWhile_append_stop Char.isDigit d1 '-'
      (['o', 'f', '-'] ++ (d2 ++ (patExt ++ rest))) hdig1 dash_not_digit
    have htw2 := takeWhile_append_stop Char.isDigit d2 '.'
      (['s', 'a', 'f', 'e', 't', 'e', 'n', 's', 'o', 'r', 's'] ++ rest) hdig2 dot_not_digit
    have hemp1 : d1.isEmpty = false := by
      cases d1 with
      | nil => exact absurd rfl hne1
      | cons a d => rfl
    have hemp2 : d2.isEmpty = false := by
      cases d2 with
      | nil => exact absurd rfl hne2
      | cons a d => rfl
    have ht1 : takeDigits1 (d1 ++ (pat2 ++ (d2 ++ (patExt ++ rest))))
        = some (digitsToNat d1, pat2 ++ (d2 ++ (patExt ++ rest))) := by
      have hform : d1 ++ (pat2 ++ (d2 ++ (patExt ++ rest)))
          = d1 ++ '-' :: (['o', 'f', '-'] ++ (d2 ++ (patExt ++ rest))) := rfl
      unfold takeDigits1
      rw [hform, htw1.1, htw1.2, hemp1]
      simp
      rfl
    have ht2 : takeDigits1 (d2 ++ (patExt ++ rest))
        = some (digitsToNat d2, patExt ++ rest) := by
      have hform : d2 ++ (patExt ++ rest)
          = d2 ++ '.' :: (['s', 'a', 'f', 'e', 't', 'e', 'n', 's', 'o', 'r', 's'] ++ rest) := rfl
      unfold takeDigits1
      rw [hform, htw2.1, htw2.2, hemp2]
      simp
      rfl
    simp only [parseShardName, stripLit_self_append, ht1, ht2]

/-! Claims C7 and C10. -/

/-- C7: the Writer's temp-file-then-atomic-rename discipline (modelled from
spec §4.2, the writer being the external safetensors library): on a failure
injected after partial bytes were written, the merge's target path is
untouched and the temporary file is removed; only on success does the target
receive the data, with the temporary file gone. -/
theorem atomic_write_discipline (fs : FileStore) (target tmp : FileName)
    (data : List Nat) (k : Nat) (hne : tmp ≠ target) :
    (atomicWrite fs target tmp data (some k)).2 = false
      ∧ (atomicWrite fs target tmp data (some k)).1 target = fs target
      ∧ (atomicWrite fs target tmp data (some k)).1 tmp = none
      ∧ (atomicWrite fs target tmp data none).2 = true
      ∧ (atomicWrite fs target tmp data none).1 target = some data
      ∧ (atomicWrite fs target tmp data none).1 tmp = none := by
  have hts : target ≠ tmp := Ne.symm hne
  unfold atomicWrite
  simp [Function.update_apply, hts]

/-- An empty file store for the C7 witness. -/
def w7fs : FileStore := fun _ => none

/-- Witness for C7: concrete failure after 1 of 2 bytes leaves the target
absent and the temporary file removed; the success path installs the data. -/
theorem atomic_write_discipline_witness :
    (atomicWrite w7fs ['t'] ['m'] [1, 2] (some 1)).2 = false
      ∧ (atomicWrite w7fs ['t'] ['m'] [1, 2] (some 1)).1 ['t'] = w7fs ['t']
      ∧ (atomicWrite w7fs ['t'] ['m'] [1, 2] (some 1)).1 ['m'] = none
      ∧ (atomicWrite w7fs ['t'] ['m'] [1, 2] none).2 = true
      ∧ (atomicWrite w7fs ['t'] ['m'] [1, 2] none).1 ['t'] = some [1, 2]
      ∧ (atomicWrite w7fs ['t'] ['m'] [1, 2] none).1 ['m'] = none :=
  atomic_write_discipline w7fs ['t'] ['m'] [1, 2] 1 (by decide)

/-- C10: whenever the folder-existence check, shard discovery, or shard
validation fails, `merge_model_shards` returns failure having performed no
filesystem mutation — in particular a pre-existing `merged` subdirectory is
neither removed nor recreated, since those effects come only after all
validation has succeeded. -/
theorem prevalidation_failure_no_effects (st : SysState)
    (h : st.folderExists = false ∨ st.folderIsDir = false
        ∨ (getSplitFiles st.entries).1 = none
        ∨ ∃ files total, (getSplitFiles st.entries).1 = some (files, total)
            ∧ (validateShards (fun f => is_lfs_pointer (st.fdata f)) files total).1
                = false) :
    merge_model_shards st = (false, []) := by
  unfold merge_model_shards
  rcases h with h | h | h | ⟨files, total, hg, hv⟩
  · simp [h]
  · cases hfe : st.folderExists with
    | false => simp [hfe]
    | true => simp [hfe, h]
  · cases hfe : st.folderExists with
    | false => simp [hfe]
    | true =>
      cases hfd : st.folderIsDir with
      | false => simp [hfe, hfd]
      | true => simp [hfe, hfd, h]
  · cases hfe : st.folderExists with
    | false => simp [hfe]
    | true =>
      cases hfd : st.folderIsDir with
      | false => simp [hfe, hfd]
      | true =>
        cases hval : validateShards (fun f => is_lfs_pointer (st.fdata f)) files total with
        | mk b e =>
          rw [hval] at hv
          simp at hv
          subst hv
          simp [hfe, hfd, hg, hval]

/-- A state whose target folder does not exist, for the C10 witness. -/
def w10state : SysState := ⟨false, false, [], fun _ => ⟨0, none⟩, false, false⟩

/-- Witness for C10: a missing folder fails with no effects. -/
theorem prevalidation_failure_no_effects_witness :
    merge_model_shards w10state = (false, []) :=
  prevalidation_failure_no_effects w10state (Or.inl rfl)

/-! Claim C8: the inconsistent-total failure and the no-match failure return
the identical value; they differ only in console output. -/

/-- C8 counterexample: the claim says the inconsistent-shard-count failure is
distinguishable in discovery's result from the no-shards-found failure. Both
return `(None, None)`: on an inconsistent pair and on a directory with no
matching entry the returned value is the same `none`. -/
theorem discovery_failures_indistinguishable :
    (getSplitFiles [String.toList "model-00001-of-00002.safetensors",
                    String.toList "model-00002-of-00003.safetensors"]).1 = none
      ∧ (getSplitFiles [String.toList "readme.txt"]).1 = none
      ∧ (getSplitFiles [String.toList "model-00001-of-00002.safetensors",
                        String.toList "model-00002-of-00003.safetensors"]).1
          = (getSplitFiles [String.toList "readme.txt"]).1 := by
  decide

theorem gsfLoop_skip_all (entries : List FileName)
    (hall : ∀ f ∈ entries, matchEntry f = none) :
    ∀ acc te, gsfLoop entries acc te = (some (acc, te), []) := by
  induction entries with
  | nil => intro acc te; rfl
  | cons f rest ih =>
    intro acc te
    have hf : matchEntry f = none := hall f (List.mem_cons_self f rest)
    have hrest := ih (fun g hg => hall g (List.mem_cons_of_mem f hg))
    cases hgf : globMatch f with
    | false =>
      simp only [gsfLoop, hgf, Bool.false_eq_true, if_false]
      exact hrest acc te
    | true =>
      cases hpf : parseShardName f with
      | none =>
        simp only [gsfLoop, hgf, if_true]
        rw [hpf]
        exact hrest acc te
      | some p =>
        exfalso
        obtain ⟨pn, pt⟩ := p
        rw [matchEntry, hgf, hpf] at hf
        simp at hf

/-- C8 (amended): when two matched shard filenames disagree on the parsed
total, discovery prints an inconsistent-shard-count message naming the
expected total, the conflicting total and the offending file, and returns the
value `(None, None)` — the same returned value as when zero filenames match
(which prints nothing), so the two failures are distinguishable only via the
console output, not in discovery's returned result. -/
theorem discovery_inconsistent_logged (f1 f2 : FileName) (n1 t1 n2 t2 : Nat)
    (hg1 : globMatch f1 = true) (hp1 : parseShardName f1 = some (n1, t1))
    (hg2 : globMatch f2 = true) (hp2 : parseShardName f2 = some (n2, t2))
    (hne : t1 ≠ t2) :
    getSplitFiles [f1, f2] = (none, [GsfMsg.inconsistent t1 t2 f2])
      ∧ ∀ entries : List FileName, (∀ f ∈ entries, matchEntry f = none) →
          getSplitFiles entries = (none, []) := by
  constructor
  · unfold getSplitFiles
    simp [gsfLoop, hg1, hp1, hg2, hp2, hne]
  · intro entries hall
    unfold getSplitFiles
    rw [gsfLoop_skip_all entries hall [] none]

/-- Witness for C8's amended claim at a concrete inconsistent pair and a
concrete matchless directory. -/
theorem discovery_inconsistent_logged_witness :
    getSplitFiles [String.toList "model-00001-of-00002.safetensors",
                   String.toList "model-00002-of-00003.safetensors"]
        = (none, [GsfMsg.inconsistent 2 3
            (String.toList "model-00002-of-00003.safetensors")])
      ∧ getSplitFiles [String.toList "readme.txt"] = (none, []) := by
  have h := discovery_inconsistent_logged
    (String.toList "model-00001-of-00002.safetensors")
    (String.toList "model-00002-of-00003.safetensors")
    1 2 2 3 (by decide) (by decide) (by decide) (by decide) (by decide)
  exact ⟨h.1, h.2 [String.toList "readme.txt"] (by decide)⟩

/-! Claim C6: the three validation gates. -/

theorem seqCheck_pass (fs : List FileName) : ∀ (nums : List Nat) (i : Nat),
    fs.map searchShardNum = nums.map some → nums = List.range' i nums.length →
    seqCheck i fs = none := by
  induction fs with
  | nil => intro nums i hmap _; rfl
  | cons f fs ih =>
    intro nums i hmap hr
    cases nums with
    | nil => simp at hmap
    | cons n nums =>
      simp only [List.map_cons, List.cons.injEq] at hmap
      obtain ⟨hhead, htail⟩ := hmap
      have hcons : (n :: nums : List Nat) = i :: List.range' (i + 1) nums.length := hr
      injection hcons with hn hnums
      simp only [seqCheck, hhead]
      rw [if_neg (by simp [hn])]
      exact ih nums (i + 1) htail hnums

theorem seqCheck_mismatch (fs : List FileName) : ∀ (nums : List Nat) (i : Nat),
    fs.map searchShardNum = nums.map some → nums ≠ List.range' i nums.length →
    ∃ j, ∃ hj : j < nums.length,
      nums.take j = List.range' i j
        ∧ nums.get ⟨j, hj⟩ ≠ i + j
        ∧ seqCheck i fs = some (i + j, nums.get ⟨j, hj⟩) := by
  induction fs with
  | nil =>
    intro nums i hmap hne
    cases nums with
    | nil => exact absurd rfl hne
    | cons n nums => simp at hmap
  | cons f fs ih =>
    intro nums i hmap hne
    cases nums with
    | nil => simp at hmap
    | cons n nums =>
      simp only [List.map_cons, List.cons.injEq] at hmap
      obtain ⟨hhead, htail⟩ := hmap
      by_cases hn : n = i
      · subst hn
        have hne2 : nums ≠ List.range' (n + 1) nums.length := by
          intro hcon
          exact hne (by rw [List.length_cons, show List.range' n (nums.length + 1)
            = n :: List.range' (n + 1) nums.length from rfl, ← hcon])
        rcases ih nums (n + 1) htail hne2 with ⟨j, hj, htake, hget, hseq⟩
        refine ⟨j + 1, Nat.succ_lt_succ hj, ?_, ?_, ?_⟩
        · rw [List.take_succ_cons, htake]
          rfl
        · rw [List.get_cons_succ]
          have : n + (j + 1) = n + 1 + j := by omega
          rw [this]
          exact hget
        · simp only [seqCheck, hhead]
          rw [if_neg (by simp), hseq, List.get_cons_succ]
          have : n + 1 + j = n + (j + 1) := by omega
          rw [this]
      · refine ⟨0, Nat.succ_pos nums.length, ?_, ?_, ?_⟩
        · rfl
        · simpa using hn
        · simp only [seqCheck, hhead]
          rw [if_pos (by simpa using hn)]
          rfl

theorem lfsCheck_none (lfs : FileName → Bool) (files : List FileName)
    (h : ∀ f ∈ files, lfs f = false) : lfsCheck lfs files = none := by
  induction files with
  | nil => rfl
  | cons f rest ih =>
    simp only [lfsCheck, h f (List.mem_cons_self f rest), Bool.false_eq_true, if_false]
    exact ih (fun g hg => h g (List.mem_cons_of_mem f hg))

/-- The complete 4-shard set with filenames encountered out of index order. -/
def outOfOrderEntries : List FileName :=
  [String.toList "model-00001-of-00004.safetensors",
   String.toList "model-00003-of-00004.safetensors",
   String.toList "model-00002-of-00004.safetensors",
   String.toList "model-00004-of-00004.safetensors"]

/-- The same 4-shard set sorted by shard index. -/
def orderedShardNames : List FileName :=
  [String.toList "model-00001-of-00004.safetensors",
   String.toList "model-00002-of-00004.safetensors",
   String.toList "model-00003-of-00004.safetensors",
   String.toList "model-00004-of-00004.safetensors"]

/-- C6: on a shard list whose names carry indices `nums`, validation fails
with the missing-shards error citing found and expected counts whenever the
length differs from the total; otherwise, when the indices are not exactly
`1..total`, it fails with the non-sequential error citing the expected index
and the found index at the first mismatch; and a complete set — also one whose
filenames were encountered out of order, which discovery sorts — passes. -/
theorem validate_shards_errors (lfs : FileName → Bool) (files : List FileName)
    (total : Nat) (nums : List Nat)
    (hmap : files.map searchShardNum = nums.map some) :
    (files.length ≠ total →
        validateShards lfs files total
          = (false, some (ValErr.missingShards files.length total)))
      ∧ (files.length = total → nums ≠ List.range' 1 total →
          ∃ j, ∃ hj : j < nums.length,
            nums.take j = List.range' 1 j
              ∧ nums.get ⟨j, hj⟩ ≠ 1 + j
              ∧ validateShards lfs files total
                  = (false, some (ValErr.nonSequential (1 + j) (nums.get ⟨j, hj⟩))))
      ∧ (nums = List.range' 1 total → (∀ f ∈ files, lfs f = false) →
          validateShards lfs files total = (true, none))
      ∧ ((getSplitFiles outOfOrderEntries).1 = some (orderedShardNames, 4)
          ∧ validateShards (fun _ => false) orderedShardNames 4 = (true, none)) := by
  have hlens : files.length = nums.length := by
    have := congrArg List.length hmap
    simpa using this
  refine ⟨?_, ?_, ?_, by decide⟩
  · intro hne
    unfold validateShards
    rw [if_pos hne]
  · intro hlen hne
    unfold validateShards
    rw [if_neg (by simp [hlen])]
    have hnlen : nums.length = total := by omega
    rcases seqCheck_mismatch files nums 1 hmap (by rw [hnlen]; exact hne)
      with ⟨j, hj, htake, hget, hseq⟩
    exact ⟨j, hj, htake, hget, by rw [hseq]⟩
  · intro hnums hlfs
    have hnlen : nums.length = total := by
      rw [hnums, List.length_range']
    unfold validateShards
    rw [if_neg (by omega)]
    rw [seqCheck_pass files nums 1 hmap (by rw [hnlen]; exact hnums)]
    rw [lfsCheck_none lfs files hlfs]

/-- A 3-of-4 shard set for the C6 witness. -/
def w6files : List FileName :=
  [String.toList "model-00001-of-00004.safetensors",
   String.toList "model-00002-of-00004.safetensors",
   String.toList "model-00004-of-00004.safetensors"]

/-- Witness for C6: a 3-of-4 set fails with `MissingShardsError` citing
found=3, expected=4. -/
theorem validate_shards_errors_witness :
    validateShards (fun _ => false) w6files 4
      = (false, some (ValErr.missingShards 3 4)) := by
  have h := validate_shards_errors (fun _ => false) w6files 4 [1, 2, 4] (by decide)
  exact h.1 (by decide)

/-! Claim C9: discovery followed by validation is invariant under the order
in which the directory scan enumerates the entries. The key steps: the
returned value of `get_split_files` is a function of the matched-entry list;
consistency of totals and the sorted key sequence are permutation-invariant;
and a validated set has distinct keys, making the sorted pair list itself
permutation-invariant. -/

/-- The discovery loop's returned value as a function of the matched entries
alone (the printed log dropped). -/
def coreRes : List (Nat × FileName) → Option Nat → List (Nat × Nat × FileName) →
    Option (List (Nat × FileName) × Option Nat)
  | acc, te, [] => some (acc, te)
  | acc, te, m :: ms =>
    match te with
    | none => coreRes (acc ++ [(m.1, m.2.2)]) (some m.2.1) ms
    | some e => if e ≠ m.2.1 then none else coreRes (acc ++ [(m.1, m.2.2)]) (some e) ms

theorem coreRes_nil (acc : List (Nat × FileName)) (te : Option Nat) :
    coreRes acc te [] = some (acc, te) := rfl

theorem coreRes_cons_none (acc : List (Nat × FileName)) (m : Nat × Nat × FileName)
    (ms : List (Nat × Nat × FileName)) :
    coreRes acc none (m :: ms) = coreRes (acc ++ [(m.1, m.2.2)]) (some m.2.1) ms := rfl

theorem coreRes_cons_some (acc : List (Nat × FileName)) (e : Nat)
    (m : Nat × Nat × FileName) (ms : List (Nat × Nat × FileName)) :
    coreRes acc (some e) (m :: ms) =
      if e ≠ m.2.1 then none
      else coreRes (acc ++ [(m.1, m.2.2)]) (some e) ms := rfl

theorem gsfLoop_fst (entries : List FileName) :
    ∀ (acc : List (Nat × FileName)) (te : Option Nat),
    (gsfLoop entries acc te).1 = coreRes acc te (entries.filterMap matchEntry) := by
  induction entries with
  | nil => intro acc te; rfl
  | cons f rest ih =>
    intro acc te
    cases hgf : globMatch f with
    | false =>
      have hmf : matchEntry f = none := by simp [matchEntry, hgf]
      rw [List.filterMap_cons_none hmf]
      simp only [gsfLoop, hgf, Bool.false_eq_true, if_false]
      exact ih acc te
    | true =>
      cases hpf : parseShardName f with
      | none =>
        have hmf : matchEntry f = none := by simp [matchEntry, hgf, hpf]
        rw [List.filterMap_cons_none hmf]
        have hl : (gsfLoop (f :: rest) acc te).1 = (gsfLoop rest acc te).1 := by
          simp [gsfLoop, hgf, hpf]
        rw [hl]
        exact ih acc te
      | some p =>
        obtain ⟨n, t⟩ := p
        have hmf : matchEntry f = some (n, t, f) := by simp [matchEntry, hgf, hpf]
        rw [List.filterMap_cons_some hmf]
        cases te with
        | none =>
          have hl : (gsfLoop (f :: rest) acc none).1
              = (gsfLoop rest (acc ++ [(n, f)]) (some t)).1 := by
            simp [gsfLoop, hgf, hpf]
          rw [hl, ih]
          rfl
        | some e =>
          by_cases hne : e ≠ t
          · have hl : (gsfLoop (f :: rest) acc (some e)).1 = none := by
              simp [gsfLoop, hgf, hpf, hne]
            rw [hl]
            rw [show coreRes acc (some e) ((n, t, f) :: rest.filterMap matchEntry)
              = none from by rw [coreRes_cons_some, if_pos hne]]
          · have ht : e = t := not_ne_iff.mp hne
            have hl : (gsfLoop (f :: rest) acc (some e)).1
                = (gsfLoop rest (acc ++ [(n, f)]) (some e)).1 := by
              simp [gsfLoop, hgf, hpf, ht]
            rw [hl, ih]
            rw [show coreRes acc (some e) ((n, t, f) :: rest.filterMap matchEntry)
              = coreRes (acc ++ [(n, f)]) (some e) (rest.filterMap matchEntry) from by
                rw [coreRes_cons_some, if_neg hne]]

theorem coreRes_some (ms : List (Nat × Nat × FileName)) :
    ∀ (acc : List (Nat × FileName)) (e : Nat),
    coreRes acc (some e) ms =
      if ms.all (fun m => m.2.1 == e)
      then some (acc ++ ms.map (fun m => (m.1, m.2.2)), some e)
      else none := by
  induction ms with
  | nil => intro acc e; simp [coreRes_nil]
  | cons m ms ih =>
    intro acc e
    cases he : (m.2.1 == e) with
    | false =>
      have hne : e ≠ m.2.1 := by
        intro hcon
        rw [hcon] at he
        simp at he
      rw [coreRes_cons_some, if_pos hne]
      simp [List.all_cons, he]
    | true =>
      have heq : e = m.2.1 := (beq_iff_eq.mp he).symm
      rw [coreRes_cons_some, if_neg (by simp [heq]), ih]
      simp only [List.all_cons, he, Bool.true_and, List.map_cons]
      cases hall : ms.all (fun m => m.2.1 == e) <;> simp [hall]

theorem getSplitFiles_fst_eq (entries : List FileName) :
    (getSplitFiles entries).1 =
      match (gsfLoop entries [] none).1 with
      | none => none
      | some (pairs, te) =>
        match pairs, te with
        | [], _ => none
        | p :: ps, some t => some ((sortPairs (p :: ps)).map (fun x => x.2), t)
        | _ :: _, none => none := by
  unfold getSplitFiles
  cases hgl : gsfLoop entries [] none with
  | mk r log =>
    cases r with
    | none => rfl
    | some v =>
      obtain ⟨pairs, te⟩ := v
      cases pairs <;> cases te <;> rfl

theorem getSplitFiles_none_char (entries : List FileName)
    (h : entries.filterMap matchEntry = []) : (getSplitFiles entries).1 = none := by
  rw [getSplitFiles_fst_eq, gsfLoop_fst, h]
  rfl

theorem getSplitFiles_cons_char (entries : List FileName)
    (m : Nat × Nat × FileName) (ms : List (Nat × Nat × FileName))
    (h : entries.filterMap matchEntry = m :: ms) :
    (getSplitFiles entries).1 =
      if (m :: ms).all (fun x => x.2.1 == m.2.1)
      then some ((sortPairs ((m :: ms).map (fun x => (x.1, x.2.2)))).map
          (fun p => p.2), m.2.1)
      else none := by
  rw [getSplitFiles_fst_eq, gsfLoop_fst, h]
  rw [show coreRes [] none (m :: ms) = coreRes [(m.1, m.2.2)] (some m.2.1) ms from rfl]
  rw [coreRes_some]
  cases hall : ms.all (fun x => x.2.1 == m.2.1) with
  | true =>
    rw [if_pos rfl, if_pos (by simp [List.all_cons, hall])]
    rfl
  | false =>
    rw [if_neg (by simp), if_neg (by simp [List.all_cons, hall])]

theorem sortPairs_perm (l : List (Nat × FileName)) : (sortPairs l).Perm l :=
  List.perm_insertionSort shardLe l

theorem sortPairs_sorted (l : List (Nat × FileName)) :
    List.Sorted shardLe (sortPairs l) :=
  List.sorted_insertionSort shardLe l

theorem sorted_perm_map_fst_eq (p1 p2 : List (Nat × FileName))
    (hperm : p1.Perm p2) (hs1 : List.Sorted shardLe p1)
    (hs2 : List.Sorted shardLe p2) :
    p1.map Prod.fst = p2.map Prod.fst := by
  haveI : IsAntisymm Nat (fun a b : Nat => a ≤ b) :=
    ⟨fun a b h1 h2 => Nat.le_antisymm h1 h2⟩
  have h1 : List.Sorted (fun a b : Nat => a ≤ b) (p1.map Prod.fst) :=
    List.Pairwise.map Prod.fst (fun a b h => h) hs1
  have h2 : List.Sorted (fun a b : Nat => a ≤ b) (p2.map Prod.fst) :=
    List.Pairwise.map Prod.fst (fun a b h => h) hs2
  exact List.eq_of_perm_of_sorted (hperm.map Prod.fst) h1 h2

theorem sorted_perm_nodup_eq (p1 p2 : List (Nat × FileName))
    (hperm : p1.Perm p2) (hs1 : List.Sorted shardLe p1)
    (hs2 : List.Sorted shardLe p2) (hnd : (p1.map Prod.fst).Nodup) : p1 = p2 := by
  haveI : IsAntisymm (Nat × FileName) (fun a b => a.1 < b.1 ∨ a = b) := ⟨by
    intro a b h1 h2
    rcases h1 with h1 | h1
    · rcases h2 with h2 | h2
      · exact absurd (Nat.lt_trans h1 h2) (Nat.lt_irrefl _)
      · exact h2.symm
    · exact h1⟩
  have hnd2 : (p2.map Prod.fst).Nodup := ((hperm.map Prod.fst).nodup_iff).mp hnd
  have hp1 : List.Pairwise (fun a b : Nat × FileName => a.1 ≠ b.1) p1 :=
    (List.pairwise_map).mp hnd
  have hp2 : List.Pairwise (fun a b : Nat × FileName => a.1 ≠ b.1) p2 :=
    (List.pairwise_map).mp hnd2
  have hs1r : List.Pairwise (fun a b : Nat × FileName => a.1 < b.1 ∨ a = b) p1 :=
    (hs1.and hp1).imp (fun h => Or.inl (Nat.lt_of_le_of_ne h.1 h.2))
  have hs2r : List.Pairwise (fun a b : Nat × FileName => a.1 < b.1 ∨ a = b) p2 :=
    (hs2.and hp2).imp (fun h => Or.inl (Nat.lt_of_le_of_ne h.1 h.2))
  exact List.eq_of_perm_of_sorted hperm hs1r hs2r

theorem searchShardNum_of_parse (f : FileName) (n t : Nat)
    (h : parseShardName f = some (n, t)) : searchShardNum f = some n := by
  cases f with
  | nil =>
    have hn : parseShardName ([] : FileName) = none := rfl
    rw [hn] at h
    exact absurd h (by simp)
  | cons c rest => simp only [searchShardNum, h]

theorem mem_filterMap_matchEntry (m : Nat × Nat × FileName) (entries : List FileName)
    (hm : m ∈ entries.filterMap matchEntry) :
    parseShardName m.2.2 = some (m.1, m.2.1) := by
  rcases List.mem_filterMap.mp hm with ⟨f, hf, hmf⟩
  cases hgf : globMatch f with
  | false => simp [matchEntry, hgf] at hmf
  | true =>
    cases hpf : parseShardName f with
    | none => simp [matchEntry, hgf, hpf] at hmf
    | some p =>
      obtain ⟨n, t⟩ := p
      simp only [matchEntry, hgf, hpf, if_true] at hmf
      have hm2 : (n, t, f) = m := by injection hmf
      rw [← hm2]
      exact hpf

theorem seqCheck_congr (fs1 : List FileName) : ∀ (fs2 : List FileName) (i : Nat),
    fs1.map searchShardNum = fs2.map searchShardNum →
    seqCheck i fs1 = seqCheck i fs2 := by
  induction fs1 with
  | nil =>
    intro fs2 i h
    cases fs2 with
    | nil => rfl
    | cons g gs => simp at h
  | cons f fs ih =>
    intro fs2 i h
    cases fs2 with
    | nil => simp at h
    | cons g gs =>
      simp only [List.map_cons, List.cons.injEq] at h
      obtain ⟨hh, ht⟩ := h
      cases hsg : searchShardNum g with
      | some n =>
        simp only [seqCheck, hh, hsg]
        by_cases hni : n = i
        · rw [if_neg (by simp [hni]), if_neg (by simp [hni])]
          exact ih gs (i + 1) ht
        · rw [if_pos hni, if_pos hni]
      | none =>
        simp only [seqCheck, hh, hsg]
        exact ih gs (i + 1) ht

theorem discoverValidate_none (lfs : FileName → Bool) (entries : List FileName)
    (h : (getSplitFiles entries).1 = none) :
    discoverValidate lfs entries = DvResult.discoveryFailed := by
  unfold discoverValidate
  rw [h]

theorem discoverValidate_some (lfs : FileName → Bool) (entries : List FileName)
    (files : List FileName) (total : Nat)
    (h : (getSplitFiles entries).1 = some (files, total)) :
    discoverValidate lfs entries =
      match validateShards lfs files total with
      | (true, _) => DvResult.ok files total
      | (false, e) => DvResult.invalid e := by
  unfold discoverValidate
  rw [h]

theorem allTotals_perm (a b : Nat × Nat × FileName)
    (la lb : List (Nat × Nat × FileName)) (hp : (a :: la).Perm (b :: lb))
    (hall : (a :: la).all (fun x => x.2.1 == a.2.1) = true) :
    (b :: lb).all (fun x => x.2.1 == b.2.1) = true := by
  simp only [List.all_eq_true, beq_iff_eq] at hall ⊢
  intro x hx
  exact (hall x (hp.mem_iff.mpr hx)).trans
    (hall b (hp.mem_iff.mpr (List.mem_cons_self b lb))).symm

/-- C9: running discovery plus validation on the same multiset of directory
entries yields the same result — the same ordered shard list and total on
success, the same failure on error — regardless of the order in which the
directory scan enumerates the entries (and hence the same result on every
re-run over an unchanged directory). -/
theorem discover_validate_order_invariant (lfs : FileName → Bool)
    (l1 l2 : List FileName) (hperm : l1.Perm l2) :
    discoverValidate lfs l1 = discoverValidate lfs l2 := by
  have hmsperm0 := hperm.filterMap matchEntry
  cases hms1 : l1.filterMap matchEntry with
  | nil =>
    have hms2 : l2.filterMap matchEntry = [] := by
      rw [hms1] at hmsperm0
      exact hmsperm0.symm.eq_nil
    rw [discoverValidate_none lfs l1 (getSplitFiles_none_char l1 hms1),
      discoverValidate_none lfs l2 (getSplitFiles_none_char l2 hms2)]
  | cons m1 ms1 =>
    cases hms2 : l2.filterMap matchEntry with
    | nil =>
      rw [hms1, hms2] at hmsperm0
      exact absurd hmsperm0.eq_nil (by simp)
    | cons m2 ms2 =>
      rw [hms1, hms2] at hmsperm0
      by_cases hc1 : (m1 :: ms1).all (fun x => x.2.1 == m1.2.1) = true
      case neg =>
        have hc2 : ¬ (m2 :: ms2).all (fun x => x.2.1 == m2.2.1) = true :=
          fun h => hc1 (allTotals_perm m2 m1 ms2 ms1 hmsperm0.symm h)
        have hg1 : (getSplitFiles l1).1 = none := by
          rw [getSplitFiles_cons_char l1 m1 ms1 hms1]
          exact if_neg hc1
        have hg2 : (getSplitFiles l2).1 = none := by
          rw [getSplitFiles_cons_char l2 m2 ms2 hms2]
          exact if_neg hc2
        rw [discoverValidate_none lfs l1 hg1, discoverValidate_none lfs l2 hg2]
      case pos =>
        have hc2 : (m2 :: ms2).all (fun x => x.2.1 == m2.2.1) = true :=
          allTotals_perm m1 m2 ms1 ms2 hmsperm0 hc1
        have htot : m2.2.1 = m1.2.1 := by
          have := List.all_eq_true.mp hc1 m2
            (hmsperm0.mem_iff.mpr (List.mem_cons_self m2 ms2))
          exact beq_iff_eq.mp this
        have hg1 : (getSplitFiles l1).1
            = some ((sortPairs ((m1 :: ms1).map (fun x => (x.1, x.2.2)))).map
                (fun p => p.2), m1.2.1) := by
          rw [getSplitFiles_cons_char l1 m1 ms1 hms1]
          exact if_pos hc1
        have hg2 : (getSplitFiles l2).1
            = some ((sortPairs ((m2 :: ms2).map (fun x => (x.1, x.2.2)))).map
                (fun p => p.2), m2.2.1) := by
          rw [getSplitFiles_cons_char l2 m2 ms2 hms2]
          exact if_pos hc2
        rw [discoverValidate_some lfs l1 _ _ hg1, discoverValidate_some lfs l2 _ _ hg2]
        set q1 := sortPairs ((m1 :: ms1).map (fun x => (x.1, x.2.2))) with hq1def
        set q2 := sortPairs ((m2 :: ms2).map (fun x => (x.1, x.2.2))) with hq2def
        have hqperm : q1.Perm q2 :=
          (sortPairs_perm _).trans
            ((hmsperm0.map _).trans (sortPairs_perm _).symm)
        have hqs1 : List.Sorted shardLe q1 := sortPairs_sorted _
        have hqs2 : List.Sorted shardLe q2 := sortPairs_sorted _
        have hfst : q1.map Prod.fst = q2.map Prod.fst :=
          sorted_perm_map_fst_eq q1 q2 hqperm hqs1 hqs2
        have hsearch1 : ∀ p ∈ q1, searchShardNum p.2 = some p.1 := by
          intro p hp
          have hp2 : p ∈ (m1 :: ms1).map (fun x => (x.1, x.2.2)) :=
            (sortPairs_perm _).mem_iff.mp hp
          rcases List.mem_map.mp hp2 with ⟨x, hx, hxp⟩
          have hxin : x ∈ l1.filterMap matchEntry := by rw [hms1]; exact hx
          have hparse := mem_filterMap_matchEntry x l1 hxin
          rw [← hxp]
          exact searchShardNum_of_parse x.2.2 x.1 x.2.1 hparse
        have hsearch2 : ∀ p ∈ q2, searchShardNum p.2 = some p.1 := by
          intro p hp
          have hp2 : p ∈ (m2 :: ms2).map (fun x => (x.1, x.2.2)) :=
            (sortPairs_perm _).mem_iff.mp hp
          rcases List.mem_map.mp hp2 with ⟨x, hx, hxp⟩
          have hxin : x ∈ l2.filterMap matchEntry := by rw [hms2]; exact hx
          have hparse := mem_filterMap_matchEntry x l2 hxin
          rw [← hxp]
          exact searchShardNum_of_parse x.2.2 x.1 x.2.1 hparse
        have h1map : (q1.map (fun p => p.2)).map searchShardNum
            = (q1.map Prod.fst).map some := by
          rw [List.map_map, List.map_map]
          exact List.map_congr_left (fun p hp => hsearch1 p hp)
        have h2map : (q2.map (fun p => p.2)).map searchShardNum
            = (q2.map Prod.fst).map some := by
          rw [List.map_map, List.map_map]
          exact List.map_congr_left (fun p hp => hsearch2 p hp)
        have hlenq : q1.length = q2.length := hqperm.length_eq
        by_cases hcount : (q1.map (fun p => p.2)).length = m1.2.1
        · have hcount2 : (q2.map (fun p => p.2)).length = m1.2.1 := by
            simp only [List.length_map] at hcount ⊢
            omega
          have hmapeq : (q1.map (fun p => p.2)).map searchShardNum
              = (q2.map (fun p => p.2)).map searchShardNum := by
            rw [h1map, h2map, hfst]
          cases hsc : seqCheck 1 (q1.map (fun p => p.2)) with
          | some en =>
            obtain ⟨e, n⟩ := en
            have hsc2 : seqCheck 1 (q2.map (fun p => p.2)) = some (e, n) := by
              rw [← seqCheck_congr _ _ 1 hmapeq]
              exact hsc
            have hv1 : validateShards lfs (q1.map (fun p => p.2)) m1.2.1
                = (false, some (ValErr.nonSequential e n)) := by
              unfold validateShards
              rw [if_neg (by simp [hcount]), hsc]
            have hv2 : validateShards lfs (q2.map (fun p => p.2)) m2.2.1
                = (false, some (ValErr.nonSequential e n)) := by
              unfold validateShards
              rw [htot, if_neg (by simp [hcount2]), hsc2]
            rw [hv1, hv2]
          | none =>
            have hnums : q1.map Prod.fst
                = List.range' 1 (q1.map Prod.fst).length := by
              by_contra hcon
              rcases seqCheck_mismatch (q1.map (fun p => p.2)) (q1.map Prod.fst) 1
                h1map hcon with ⟨j, hj, _, _, hsome⟩
              rw [hsc] at hsome
              exact absurd hsome (by simp)
            have hnd : (q1.map Prod.fst).Nodup := by
              rw [hnums]
              exact List.nodup_range' _ _
            have hq12 : q1 = q2 := sorted_perm_nodup_eq q1 q2 hqperm hqs1 hqs2 hnd
            rw [hq12, htot]
        · have hcount2 : ¬ (q2.map (fun p => p.2)).length = m1.2.1 := by
            simp only [List.length_map] at hcount ⊢
            omega
          have hv1 : validateShards lfs (q1.map (fun p => p.2)) m1.2.1
              = (false, some (ValErr.missingShards
                  (q1.map (fun p => p.2)).length m1.2.1)) := by
            unfold validateShards
            rw [if_pos hcount]
          have hv2 : validateShards lfs (q2.map (fun p => p.2)) m2.2.1
              = (false, some (ValErr.missingShards
                  (q2.map (fun p => p.2)).length m1.2.1)) := by
            unfold validateShards
            rw [htot, if_pos hcount2]
          rw [hv1, hv2]
          simp only [List.length_map, hlenq]

/-- Witness for C9: the two enumeration orders of a concrete 2-shard
directory produce the identical discovery-plus-validation result. -/
theorem discover_validate_order_invariant_witness :
    discoverValidate (fun _ => false)
        [String.toList "model-00002-of-00002.safetensors",
         String.toList "model-00001-of-00002.safetensors"]
      = discoverValidate (fun _ => false)
        [String.toList "model-00001-of-00002.safetensors",
         String.toList "model-00002-of-00002.safetensors"] :=
  discover_validate_order_invariant (fun _ => false) _ _ (by decide)

end Splitmerge
